import Mathlib

/-!
Verification of the PySnake game-state core (src/PySnake.py, src/settings.py).

The embedding models `SnakeBoard` from PySnake.py.  Python specifics are
rendered as follows:

* the board `self._board` (a list of lists of one-character strings) becomes a
  total function `Int × Int → Cell`; every access the program performs is
  bounds-checked first, so the function values outside the grid are never read;
* grid coordinates and direction components are Python ints, embedded as `Int`;
* `random.randint` results are passed in as explicit parameters: construction
  receives the chosen head cell, and the rejection-sampling loop of
  `generate_apple` receives the stream of candidate cells it draws; the loop
  returns `none` when the stream is exhausted, modelling nontermination;
* `raise InvalidGridSizeException` in `__init__` becomes the
  `InitResult.invalidGridSize` constructor;
* `next` returns `True` on the two collision paths and falls off the end of the
  function otherwise, which in Python yields `None`; the return value is
  therefore embedded as `Option Bool` (`some true` for `return True`, `none`
  for the implicit `return None`).
-/

/-- The four tile tags of `self._board`: `'S1'` (snake head), `'S0'` (snake
body), `'A'` (apple) and `'N'` (nothing). -/
inductive Cell where
  | S1 : Cell
  | S0 : Cell
  | A : Cell
  | N : Cell
deriving DecidableEq

/-- The grid, indexed as `board (row, col)`. -/
abbrev Board := Int × Int → Cell

/-- A single assignment `self._board[p.1][p.2] = v`. -/
def setCell (b : Board) (p : Int × Int) (v : Cell) : Board :=
  fun q => if q = p then v else b q

/-- A sequence of assignments of the same value `v` to the cells `ps`, in
order.  The loops at lines 201-205 and 207-211 of PySnake.py only write this
one value to the listed cells, so each loop is this fold over its list of
target cells. -/
def writeAll (b : Board) (ps : List (Int × Int)) (v : Cell) : Board :=
  ps.foldl (fun acc p => setCell acc p v) b

/-- The state of `SnakeBoard` (PySnake.py lines 27-98): attribute for
attribute, with the leading underscores dropped and `_end` rendered as `end_`
(`end` is reserved in Lean). -/
structure SnakeBoard where
  row : Int
  col : Int
  board : Board
  snake_direction : Int × Int
  snake_row : Int
  snake_col : Int
  snake : List (Int × Int)
  snake_length : Nat
  end_ : Bool
  apple_row : Int
  apple_col : Int
  move_lock : Bool

instance : Inhabited SnakeBoard :=
  ⟨{ row := 0, col := 0, board := fun _ => Cell.N, snake_direction := (0, 0),
     snake_row := 0, snake_col := 0, snake := [], snake_length := 0,
     end_ := false, apple_row := 0, apple_col := 0, move_lock := false }⟩

/-- `SnakeBoard.update_direction` (lines 143-157).  Note that when the current
direction is `(0, 0)` the direction is adopted *before* the reversal check, so
the check then runs against the freshly adopted direction. -/
def SnakeBoard.update_direction (s : SnakeBoard) (direction : Int × Int) :
    SnakeBoard :=
  if s.move_lock then s
  else
    let s1 := if s.snake_direction = (0, 0) then
      { s with snake_direction := direction } else s
    if ¬(-direction.1 = s1.snake_direction.1 ∨
         -direction.2 = s1.snake_direction.2) then
      { s1 with snake_direction := direction, move_lock := true }
    else s1

/-- `new_snake_row` (line 170): the vertical direction component is the second
entry of the direction tuple. -/
def SnakeBoard.newRow (s : SnakeBoard) : Int :=
  s.snake_row + s.snake_direction.2

/-- `new_snake_col` (line 171). -/
def SnakeBoard.newCol (s : SnakeBoard) : Int :=
  s.snake_col + s.snake_direction.1

/-- Lines 183-211 of `SnakeBoard.next`: the in-place mutations performed once
both collision checks have passed, in source order.  Returns the updated state
together with `ate_apple`.

* `b1` is line 183 (clear the old head cell), performed before `ate_apple` is
  read at line 194;
* `sn1`/`sn2` are lines 188-192: append the new head, then `pop(0)` when the
  history exceeds `self._snake_length + 1` — with the *old* length, since the
  increment only happens at line 197;
* `len2` is lines 196-197;
* `b2` is line 199 (tag the new head);
* `b3` is the loop at lines 201-205: `self._board[self._snake[-i]] = 'S0'` for
  `i in range(2, self._snake_length + 1)`; the Python negative index
  `self._snake[-i]` is `sn2[len(sn2) - i]`, written with `getD` (the default is
  never used for the states the theorems below quantify over, where
  `self._snake_length <= len(self._snake)` holds);
* `b4` is the loop at lines 207-211:
  `self._board[self._snake[i]] = 'N'` for `i in
  range(len(self._snake) - self._snake_length - 1, -1, -1)`. -/
def SnakeBoard.advanceCore (s : SnakeBoard) : SnakeBoard × Bool :=
  let nr := s.newRow
  let nc := s.newCol
  let b1 := setCell s.board (s.snake_row, s.snake_col) Cell.N
  let sn1 := s.snake ++ [(nr, nc)]
  let sn2 := if sn1.length > s.snake_length + 1 then sn1.drop 1 else sn1
  let ate := decide (b1 (nr, nc) = Cell.A)
  let len2 := if ate then s.snake_length + 1 else s.snake_length
  let b2 := setCell b1 (nr, nc) Cell.S1
  let b3 := writeAll b2
    ((List.range' 2 (len2 - 1)).map fun i => sn2.getD (sn2.length - i) (0, 0))
    Cell.S0
  let b4 := writeAll b3
    ((List.range (sn2.length - len2)).reverse.map fun i => sn2.getD i (0, 0))
    Cell.N
  ({ s with board := b4, snake_row := nr, snake_col := nc, snake := sn2,
            snake_length := len2 }, ate)

/-- The rejection-sampling loop of `generate_apple` (lines 131-136): draw
candidates until one rests on an `'N'` cell.  The candidate stream is the
explicit list `picks`; exhausting it models the loop running forever. -/
def genAppleLoop (b : Board) : List (Int × Int) → Option (Int × Int)
  | [] => none
  | p :: ps => if b p = Cell.N then some p else genAppleLoop b ps

/-- `SnakeBoard.generate_apple` (lines 128-141): place the apple on the cell
found by the loop and record its coordinates. -/
def SnakeBoard.generate_apple (s : SnakeBoard) (picks : List (Int × Int)) :
    Option SnakeBoard :=
  match genAppleLoop s.board picks with
  | none => none
  | some p =>
      some { s with board := setCell s.board p Cell.A,
                    apple_row := p.1, apple_col := p.2 }

/-- Outcome of `SnakeBoard.__init__`: `invalidGridSize` models
`raise InvalidGridSizeException` (line 74), `appleLoop` models
`generate_apple` never finding an empty cell in its candidate stream. -/
inductive InitResult where
  | invalidGridSize : InitResult
  | appleLoop : InitResult
  | ok : SnakeBoard → InitResult

/-- `SnakeBoard.__init__` (lines 71-98).  `headPick` is the cell drawn by the
two `random.randint` calls at lines 86-87; `picks` feeds `generate_apple`.
`self._apple_row`/`_col` do not exist before `generate_apple` assigns them, so
the pre-`generate_apple` state carries placeholder zeros that are overwritten
whenever construction succeeds. -/
def SnakeBoard.initState (row col : Int) (headPick : Int × Int) :
    SnakeBoard :=
  { row := row, col := col,
    board := setCell (fun _ => Cell.N) headPick Cell.S1,
    snake_direction := (0, 0),
    snake_row := headPick.1, snake_col := headPick.2,
    snake := [headPick], snake_length := 1, end_ := false,
    apple_row := 0, apple_col := 0, move_lock := false }

def SnakeBoard.init (row col : Int) (headPick : Int × Int)
    (picks : List (Int × Int)) : InitResult :=
  if row < 2 ∨ col < 2 then InitResult.invalidGridSize
  else
    match (SnakeBoard.initState row col headPick).generate_apple picks with
    | none => InitResult.appleLoop
    | some t => InitResult.ok t

/-- `SnakeBoard.next` (lines 159-214).  The returned `Option Bool` is the
Python return value: `some true` for the two `return True` statements, `none`
for falling off the end of the function (Python `None`).  The outer `Option`
is `none` exactly when `generate_apple` exhausts its candidate stream. -/
def SnakeBoard.next (s : SnakeBoard) (picks : List (Int × Int)) :
    Option (SnakeBoard × Option Bool) :=
  let t := { s with move_lock := false }
  if ¬(0 ≤ t.newRow ∧ t.newRow < t.row) ∨
     ¬(0 ≤ t.newCol ∧ t.newCol < t.col) then
    some ({ t with end_ := true }, some true)
  else if t.board (t.newRow, t.newCol) = Cell.S0 then
    some ({ t with end_ := true }, some true)
  else
    let m := t.advanceCore
    if m.2 then
      match m.1.generate_apple picks with
      | none => none
      | some u => some (u, none)
    else some (m.1, none)

/-- The state of the board right before line 213 of a colliding-free tick
(`if ate_apple: self.generate_apple()`): the claim about food consumption
speaks of the board "immediately before regeneration". -/
def SnakeBoard.preRegenState (s : SnakeBoard) : SnakeBoard :=
  ({ s with move_lock := false }).advanceCore.1

/-- The in-bounds predicate `0 <= p.1 < row and 0 <= p.2 < col` used by the
wall check at line 174 and guaranteed for every `random.randint` draw. -/
abbrev inB (row col : Int) (p : Int × Int) : Prop :=
  0 ≤ p.1 ∧ p.1 < row ∧ 0 ≤ p.2 ∧ p.2 < col

/-- All cells of a `row × col` grid, as a list. -/
def gridCells (row col : Int) : List (Int × Int) :=
  ((List.range row.toNat).product (List.range col.toNat)).map
    (fun rc => ((rc.1 : Int), (rc.2 : Int)))

/-- The last `self._snake_length` entries of the position history: the spec's
"last `length` entries". -/
def lastSeg (s : SnakeBoard) : List (Int × Int) :=
  s.snake.drop (s.snake.length - s.snake_length)

/-- The history entries before the last `self._snake_length` ones: the spec's
"earlier (stale) entries". -/
def staleSeg (s : SnakeBoard) : List (Int × Int) :=
  s.snake.take (s.snake.length - s.snake_length)

/-- Is a cell tagged as part of the snake (`'S1'` or `'S0'`)? -/
def isSnakeTag (c : Cell) : Bool :=
  match c with
  | Cell.S1 => true
  | Cell.S0 => true
  | _ => false

/-- Number of grid cells tagged `'S1'` or `'S0'`. -/
def countSnake (s : SnakeBoard) : Nat :=
  (gridCells s.row s.col).countP (fun p => isSnakeTag (s.board p))

/-- Number of grid cells tagged `'S1'`. -/
def countHead (s : SnakeBoard) : Nat :=
  (gridCells s.row s.col).countP (fun p => decide (s.board p = Cell.S1))

/-- Number of grid cells tagged `'A'`. -/
def countApple (s : SnakeBoard) : Nat :=
  (gridCells s.row s.col).countP (fun p => decide (s.board p = Cell.A))

/-- The representation invariant exactly as the claim states it: the grid
cells tagged `'S1'`/`'S0'` are exactly the last `length` history entries, with
cardinality exactly `length`; the single `'S1'` is at the current head
position; no earlier (stale) history entry is tagged; the history retains at
most `length + 1` entries. -/
def SpecInv (s : SnakeBoard) : Prop :=
  countSnake s = s.snake_length ∧
  countHead s = 1 ∧
  s.board (s.snake_row, s.snake_col) = Cell.S1 ∧
  (∀ p ∈ gridCells s.row s.col,
      isSnakeTag (s.board p) = true ↔ p ∈ lastSeg s) ∧
  (∀ p ∈ staleSeg s, isSnakeTag (s.board p) = false) ∧
  s.snake.length ≤ s.snake_length + 1

/-- The internal inductive invariant, over the state components that
`advanceCore` touches.  Beyond `SpecInv` it records distinctness and bounds of
the occupied cells, the head being the most recent history entry, a full
characterisation of each tag on the grid, and the apple position. -/
abbrev InvOn (row col : Int) (b : Board) (h : List (Int × Int)) (L : Nat)
    (hr hc ar ac : Int) : Prop :=
  1 ≤ L ∧ L ≤ h.length ∧ h.length ≤ L + 1 ∧
  (h.drop (h.length - L)).Nodup ∧
  (∀ p ∈ h.drop (h.length - L), inB row col p) ∧
  h.getLast? = some (hr, hc) ∧
  (∀ p ∈ gridCells row col, (b p = Cell.S1 ↔ p = (hr, hc))) ∧
  (∀ p ∈ gridCells row col,
      (b p = Cell.S0 ↔ p ∈ h.drop (h.length - L) ∧ p ≠ (hr, hc))) ∧
  (∀ p ∈ gridCells row col, (b p = Cell.A ↔ p = (ar, ac))) ∧
  inB row col (ar, ac) ∧
  (∀ p ∈ h.take (h.length - L),
      inB row col p ∧ b p ≠ Cell.S1 ∧ b p ≠ Cell.S0) ∧
  2 ≤ row ∧ 2 ≤ col

/-- The internal invariant of a `SnakeBoard` state. -/
abbrev SnakeInv (s : SnakeBoard) : Prop :=
  InvOn s.row s.col s.board s.snake s.snake_length s.snake_row s.snake_col
    s.apple_row s.apple_col

/-- The four direction vectors of `KEY_DICT` (lines 12-17), the only
arguments `update_direction` is ever called with. -/
def unitDirs : List (Int × Int) :=
  [(0, -1), (0, 1), (-1, 0), (1, 0)]

/-- States reachable as the claim quantifies them, amended so that `next` is
only invoked once a direction has been chosen (nonzero direction): start from
any successful construction whose random draws are in bounds, then apply any
sequence of `update_direction` calls (with the `KEY_DICT` vectors) and
non-terminating `next` calls. -/
inductive ReachableA : SnakeBoard → Prop where
  | init (row col : Int) (hp : Int × Int) (picks : List (Int × Int))
      (s : SnakeBoard) :
      inB row col hp → (∀ p ∈ picks, inB row col p) →
      SnakeBoard.init row col hp picks = InitResult.ok s → ReachableA s
  | dir (s : SnakeBoard) (d : Int × Int) :
      ReachableA s → d ∈ unitDirs → ReachableA (s.update_direction d)
  | step (s : SnakeBoard) (picks : List (Int × Int))
      (pr : SnakeBoard × Option Bool) :
      ReachableA s → s.snake_direction ≠ (0, 0) →
      (∀ p ∈ picks, inB s.row s.col p) →
      s.next picks = some pr → pr.2 ≠ some true → ReachableA pr.1

/-- States reachable exactly as the claim is worded: like `ReachableA` but
with no restriction on the direction when `next` is called, so a tick before
the first accepted direction command is allowed. -/
inductive ReachableO : SnakeBoard → Prop where
  | init (row col : Int) (hp : Int × Int) (picks : List (Int × Int))
      (s : SnakeBoard) :
      inB row col hp → (∀ p ∈ picks, inB row col p) →
      SnakeBoard.init row col hp picks = InitResult.ok s → ReachableO s
  | dir (s : SnakeBoard) (d : Int × Int) :
      ReachableO s → d ∈ unitDirs → ReachableO (s.update_direction d)
  | step (s : SnakeBoard) (picks : List (Int × Int))
      (pr : SnakeBoard × Option Bool) :
      ReachableO s → (∀ p ∈ picks, inB s.row s.col p) →
      s.next picks = some pr → pr.2 ≠ some true → ReachableO pr.1

/-- Extract the constructed state from a successful `InitResult`. -/
def InitResult.getOk : InitResult → SnakeBoard
  | InitResult.ok s => s
  | _ => default

/-- The state-and-return pair of a tick that did not exhaust the apple
stream. -/
def nextOut (s : SnakeBoard) (picks : List (Int × Int)) :
    SnakeBoard × Option Bool :=
  (s.next picks).getD (default, none)

/-- The Python return value of a tick, when the tick completed. -/
def nextRet (s : SnakeBoard) (picks : List (Int × Int)) :
    Option (Option Bool) :=
  (s.next picks).map (fun pr => pr.2)

/-- Concrete run: a 2 × 2 game with head drawn at `(0, 0)` and the apple drawn
at `(1, 1)`. -/
def w0 : SnakeBoard := (SnakeBoard.init 2 2 (0, 0) [(1, 1)]).getOk

/-- `w0` after one tick with the direction still `(0, 0)`: the pre-direction
tick of C1/C10. -/
def w1 : SnakeBoard := (nextOut w0 []).1

/-- `w0` after a left command: the very first keypress adopts `(-1, 0)`. -/
def wCrash : SnakeBoard := w0.update_direction (-1, 0)

/-- Concrete run: a 3 × 3 game with head drawn at `(1, 1)` and the apple drawn
at `(0, 0)`. -/
def wInit3 : SnakeBoard := (SnakeBoard.init 3 3 (1, 1) [(0, 0)]).getOk

/-- `wInit3` after a right command: direction `(1, 0)` adopted, lock clear. -/
def wDir3 : SnakeBoard := wInit3.update_direction (1, 0)

/-- `wDir3` after a down command: direction `(0, 1)`, lock set. -/
def wLock3 : SnakeBoard := wDir3.update_direction (0, 1)

/-- `wLock3` after one tick: head at `(2, 1)`, lock cleared again. -/
def wStep3 : SnakeBoard := (nextOut wLock3 []).1

/-- Concrete run: a 2 × 2 game with head at `(0, 0)` and apple at `(0, 1)`. -/
def wEat0 : SnakeBoard := (SnakeBoard.init 2 2 (0, 0) [(0, 1)]).getOk

/-- `wEat0` after a right command: the next tick moves onto the apple. -/
def wEat1 : SnakeBoard := wEat0.update_direction (1, 0)

/-! ### Basic lemmas about the board-write helpers -/

theorem setCell_apply (b : Board) (p : Int × Int) (v : Cell) (q : Int × Int) :
    setCell b p v q = if q = p then v else b q := rfl

theorem writeAll_apply (v : Cell) :
    ∀ (ps : List (Int × Int)) (b : Board) (q : Int × Int),
      writeAll b ps v q = if q ∈ ps then v else b q := by
  intro ps
  induction ps with
  | nil => intro b q; simp [writeAll]
  | cons p ps ih =>
      intro b q
      show writeAll (setCell b p v) ps v q = _
      rw [ih]
      by_cases hq : q ∈ ps
      · simp [hq]
      · by_cases hqp : q = p <;> simp [hq, hqp, setCell]

theorem genAppleLoop_sound (b : Board) :
    ∀ (picks : List (Int × Int)) (p : Int × Int),
      genAppleLoop b picks = some p → b p = Cell.N ∧ p ∈ picks := by
  intro picks
  induction picks with
  | nil => intro p h; simp [genAppleLoop] at h
  | cons q ps ih =>
      intro p h
      by_cases hq : b q = Cell.N
      · simp [genAppleLoop, hq] at h
        subst h
        exact ⟨hq, by simp⟩
      · simp [genAppleLoop, hq] at h
        rcases ih p h with ⟨h1, h2⟩
        exact ⟨h1, by simp [h2]⟩

/-! ### The grid cell list -/

theorem gridCells_nodup (row col : Int) : (gridCells row col).Nodup := by
  refine List.Nodup.map ?_
    (List.Nodup.product (List.nodup_range row.toNat) (List.nodup_range col.toNat))
  intro a b hab
  simp only [Prod.ext_iff, Nat.cast_inj] at hab
  exact Prod.ext hab.1 hab.2

theorem mem_gridCells (row col : Int) (hrow : 0 ≤ row) (hcol : 0 ≤ col)
    (p : Int × Int) : p ∈ gridCells row col ↔ inB row col p := by
  constructor
  · intro hp
    rcases List.mem_map.1 hp with ⟨rc, hrc, hrcp⟩
    have h1 : rc.1 ∈ List.range row.toNat ∧ rc.2 ∈ List.range col.toNat :=
      List.pair_mem_product.1 hrc
    rcases h1 with ⟨ha, hb⟩
    rw [List.mem_range] at ha hb
    subst hrcp
    refine ⟨by positivity, ?_, by positivity, ?_⟩
    · have : (rc.1 : Int) < (row.toNat : Int) := by exact_mod_cast ha
      omega
    · have : (rc.2 : Int) < (col.toNat : Int) := by exact_mod_cast hb
      omega
  · intro hp
    rcases hp with ⟨h1, h2, h3, h4⟩
    refine List.mem_map.2 ⟨(p.1.toNat, p.2.toNat), ?_, ?_⟩
    · refine List.pair_mem_product.2 ⟨?_, ?_⟩ <;> rw [List.mem_range] <;> omega
    · have e1 : ((p.1.toNat : Int)) = p.1 := Int.toNat_of_nonneg h1
      have e2 : ((p.2.toNat : Int)) = p.2 := Int.toNat_of_nonneg h3
      calc ((p.1.toNat : Int), (p.2.toNat : Int)) = (p.1, p.2) := by rw [e1, e2]
        _ = p := rfl

/-! ### Membership via `getD`, and the loops' target-cell lists -/

theorem mem_drop_iff_getD (l : List (Int × Int)) (k : Nat) (q : Int × Int) :
    q ∈ l.drop k ↔ ∃ j, k ≤ j ∧ j < l.length ∧ l.getD j (0, 0) = q := by
  constructor
  · intro hq
    rcases List.mem_iff_getElem.1 hq with ⟨i, hi, hiq⟩
    have hlen : i < l.length - k := by simpa using hi
    refine ⟨k + i, by omega, by omega, ?_⟩
    rw [List.getD_eq_getElem _ _ (by omega : k + i < l.length)]
    rw [List.getElem_drop] at hiq
    exact hiq
  · rintro ⟨j, hkj, hjl, hjq⟩
    rw [List.getD_eq_getElem _ _ hjl] at hjq
    apply List.mem_iff_getElem.2
    refine ⟨j - k, by simp; omega, ?_⟩
    rw [List.getElem_drop]
    have : k + (j - k) = j := by omega
    simp_rw [this]
    exact hjq

theorem mem_tag_positions (ob : List (Int × Int)) (nw : Int × Int) (L2 : Nat)
    (h2 : L2 ≤ ob.length + 1) (q : Int × Int) :
    (q ∈ (List.range' 2 (L2 - 1)).map
        (fun i => (ob ++ [nw]).getD ((ob ++ [nw]).length - i) (0, 0)))
      ↔ q ∈ ob.drop (ob.length + 1 - L2) := by
  have hlen : (ob ++ [nw]).length = ob.length + 1 := by simp
  rw [List.mem_map, mem_drop_iff_getD]
  constructor
  · rintro ⟨i, hi, hq⟩
    rw [List.mem_range'_1] at hi
    have hi2 : 2 ≤ i ∧ i < 2 + (L2 - 1) := hi
    have hiL2 : i ≤ L2 := by omega
    refine ⟨ob.length + 1 - i, by omega, by omega, ?_⟩
    rw [hlen] at hq
    rw [← hq]
    have hj : ob.length + 1 - i < ob.length := by omega
    rw [List.getD_eq_getElem _ _ (by simp; omega : ob.length + 1 - i < (ob ++ [nw]).length)]
    rw [List.getD_eq_getElem _ _ hj]
    exact (List.getElem_append_left hj).symm
  · rintro ⟨j, hkj, hjl, hjq⟩
    refine ⟨ob.length + 1 - j, ?_, ?_⟩
    · rw [List.mem_range'_1]
      omega
    · rw [hlen]
      have hjj : ob.length + 1 - (ob.length + 1 - j) = j := by omega
      rw [hjj]
      rw [List.getD_eq_getElem _ _ (by simp; omega : j < (ob ++ [nw]).length)]
      rw [List.getD_eq_getElem _ _ hjl] at hjq
      rw [← hjq]
      exact List.getElem_append_left hjl

/-! ### Counting distinct tagged cells -/

theorem countP_mem_eq_length (l m : List (Int × Int)) (hl : l.Nodup)
    (hm : m.Nodup) (hsub : ∀ p ∈ m, p ∈ l) :
    l.countP (fun p => decide (p ∈ m)) = m.length := by
  rw [List.countP_eq_length_filter]
  have hperm : List.Perm (l.filter (fun p => decide (p ∈ m))) m := by
    rw [List.perm_ext_iff_of_nodup (List.Nodup.filter _ hl) hm]
    intro a
    rw [List.mem_filter]
    constructor
    · rintro ⟨_, ha⟩; simpa using ha
    · intro ha; exact ⟨hsub a ha, by simpa using ha⟩
  exact hperm.length_eq

theorem countP_eq_one_of_unique (l : List (Int × Int)) (a : Int × Int)
    (hl : l.Nodup) (ha : a ∈ l) (P : Int × Int → Bool)
    (hchar : ∀ p ∈ l, P p = true ↔ p = a) :
    l.countP P = 1 := by
  have h1 : l.countP P = l.countP (fun p => decide (p ∈ [a])) := by
    apply List.countP_congr
    intro x hx
    rw [hchar x hx]
    simp
  rw [h1, countP_mem_eq_length l [a] hl (by simp) (by simpa using ha)]
  rfl

/-! ### `update_direction` -/

theorem update_direction_board (s : SnakeBoard) (d : Int × Int) :
    (s.update_direction d).board = s.board := by
  simp only [SnakeBoard.update_direction]
  split_ifs <;> rfl

theorem update_direction_snake (s : SnakeBoard) (d : Int × Int) :
    (s.update_direction d).snake = s.snake := by
  simp only [SnakeBoard.update_direction]
  split_ifs <;> rfl

theorem update_direction_row (s : SnakeBoard) (d : Int × Int) :
    (s.update_direction d).row = s.row := by
  simp only [SnakeBoard.update_direction]
  split_ifs <;> rfl

theorem update_direction_col (s : SnakeBoard) (d : Int × Int) :
    (s.update_direction d).col = s.col := by
  simp only [SnakeBoard.update_direction]
  split_ifs <;> rfl

theorem update_direction_snake_row (s : SnakeBoard) (d : Int × Int) :
    (s.update_direction d).snake_row = s.snake_row := by
  simp only [SnakeBoard.update_direction]
  split_ifs <;> rfl

theorem update_direction_snake_col (s : SnakeBoard) (d : Int × Int) :
    (s.update_direction d).snake_col = s.snake_col := by
  simp only [SnakeBoard.update_direction]
  split_ifs <;> rfl

theorem update_direction_snake_length (s : SnakeBoard) (d : Int × Int) :
    (s.update_direction d).snake_length = s.snake_length := by
  simp only [SnakeBoard.update_direction]
  split_ifs <;> rfl

theorem update_direction_apple_row (s : SnakeBoard) (d : Int × Int) :
    (s.update_direction d).apple_row = s.apple_row := by
  simp only [SnakeBoard.update_direction]
  split_ifs <;> rfl

theorem update_direction_apple_col (s : SnakeBoard) (d : Int × Int) :
    (s.update_direction d).apple_col = s.apple_col := by
  simp only [SnakeBoard.update_direction]
  split_ifs <;> rfl

theorem update_direction_locked (s : SnakeBoard) (d : Int × Int)
    (hl : s.move_lock = true) : s.update_direction d = s := by
  simp [SnakeBoard.update_direction, hl]

theorem update_direction_accepts (s : SnakeBoard) (d : Int × Int)
    (hl : s.move_lock = false) (hcur : s.snake_direction ∈ unitDirs)
    (hd : d ∈ unitDirs) (hne : d ≠ s.snake_direction)
    (hnrev : d ≠ (-s.snake_direction.1, -s.snake_direction.2)) :
    (s.update_direction d).snake_direction = d ∧
      (s.update_direction d).move_lock = true := by
  simp only [unitDirs, List.mem_cons, List.not_mem_nil, or_false] at hcur hd
  rcases hcur with hc | hc | hc | hc <;> rcases hd with hdd | hdd | hdd | hdd <;>
    subst hdd <;>
    first
      | exact absurd hc.symm hne
      | exact absurd (by rw [hc]; decide) hnrev
      | simp [SnakeBoard.update_direction, hl, hc]

theorem update_direction_same (s : SnakeBoard) (hl : s.move_lock = false)
    (hcur : s.snake_direction ∈ unitDirs) :
    s.update_direction s.snake_direction = s := by
  simp only [unitDirs, List.mem_cons, List.not_mem_nil, or_false] at hcur
  rcases hcur with hc | hc | hc | hc <;> simp [SnakeBoard.update_direction, hl, hc]

/-! ### Shape lemmas for `advanceCore`, `generate_apple` and `next` -/

theorem advanceCore_move_lock (s : SnakeBoard) :
    (s.advanceCore).1.move_lock = s.move_lock := rfl

theorem advanceCore_end (s : SnakeBoard) :
    (s.advanceCore).1.end_ = s.end_ := rfl

theorem advanceCore_direction (s : SnakeBoard) :
    (s.advanceCore).1.snake_direction = s.snake_direction := rfl

theorem advanceCore_row (s : SnakeBoard) : (s.advanceCore).1.row = s.row := rfl

theorem advanceCore_col (s : SnakeBoard) : (s.advanceCore).1.col = s.col := rfl

theorem advanceCore_snake_row (s : SnakeBoard) :
    (s.advanceCore).1.snake_row = s.newRow := rfl

theorem advanceCore_snake_col (s : SnakeBoard) :
    (s.advanceCore).1.snake_col = s.newCol := rfl

theorem generate_apple_some (s : SnakeBoard) (picks : List (Int × Int))
    (t : SnakeBoard) (h : s.generate_apple picks = some t) :
    ∃ p, genAppleLoop s.board picks = some p ∧ s.board p = Cell.N ∧
      p ∈ picks ∧
      t = { s with board := setCell s.board p Cell.A,
                   apple_row := p.1, apple_col := p.2 } := by
  rw [SnakeBoard.generate_apple] at h
  cases hg : genAppleLoop s.board picks with
  | none => rw [hg] at h; exact absurd h (by simp)
  | some p =>
      rw [hg] at h
      rcases genAppleLoop_sound s.board picks p hg with ⟨hN, hmem⟩
      refine ⟨p, rfl, hN, hmem, ?_⟩
      exact (Option.some.inj h).symm

theorem next_terminal (s : SnakeBoard) (picks : List (Int × Int))
    (h : ¬(0 ≤ s.newRow ∧ s.newRow < s.row) ∨
         ¬(0 ≤ s.newCol ∧ s.newCol < s.col) ∨
         s.board (s.newRow, s.newCol) = Cell.S0) :
    s.next picks =
      some ({ s with end_ := true, move_lock := false }, some true) := by
  rw [SnakeBoard.next]
  have hnr : SnakeBoard.newRow { s with move_lock := false } = s.newRow := rfl
  have hnc : SnakeBoard.newCol { s with move_lock := false } = s.newCol := rfl
  simp only [hnr, hnc]
  rcases h with h | h | h
  · rw [if_pos (Or.inl h)]
  · rw [if_pos (Or.inr h)]
  · by_cases h1 : ¬(0 ≤ s.newRow ∧ s.newRow < s.row) ∨
        ¬(0 ≤ s.newCol ∧ s.newCol < s.col)
    · rw [if_pos h1]
    · rw [if_neg h1, if_pos h]

theorem next_move_lock (s : SnakeBoard) (picks : List (Int × Int))
    (pr : SnakeBoard × Option Bool) (h : s.next picks = some pr) :
    pr.1.move_lock = false := by
  rw [SnakeBoard.next] at h
  split_ifs at h with h1 h2
  · rw [← Option.some.inj h]
  · rw [← Option.some.inj h]
  · by_cases hate : ({ s with move_lock := false }).advanceCore.2 = true
    · rw [if_pos hate] at h
      cases hg : ({ s with move_lock := false }).advanceCore.1.generate_apple
          picks with
      | none => rw [hg] at h; exact absurd h (by simp)
      | some u =>
          rw [hg] at h
          rcases generate_apple_some _ _ _ hg with ⟨p, _, _, _, hu⟩
          rw [← Option.some.inj h, hu]
          rfl
    · rw [if_neg hate] at h
      rw [← Option.some.inj h]
      rfl

/-! ### Characterisation of a collision-free tick's mutations -/

theorem advanceCore_ate (s : SnakeBoard) :
    (s.advanceCore).2 =
      decide (setCell s.board (s.snake_row, s.snake_col) Cell.N
        (s.newRow, s.newCol) = Cell.A) := rfl

theorem advanceCore_length (s : SnakeBoard) :
    (s.advanceCore).1.snake_length =
      if (s.advanceCore).2 then s.snake_length + 1 else s.snake_length := rfl

theorem advanceCore_snake_eq (s : SnakeBoard)
    (hL2 : s.snake_length ≤ s.snake.length)
    (hL3 : s.snake.length ≤ s.snake_length + 1) :
    (s.advanceCore).1.snake =
      s.snake.drop (s.snake.length - s.snake_length) ++
        [(s.newRow, s.newCol)] := by
  show (if (s.snake ++ [(s.newRow, s.newCol)]).length > s.snake_length + 1
        then (s.snake ++ [(s.newRow, s.newCol)]).drop 1
        else s.snake ++ [(s.newRow, s.newCol)]) = _
  by_cases hn : s.snake.length = s.snake_length
  · rw [if_neg (by simp [hn])]
    rw [hn, Nat.sub_self, List.drop_zero]
  · have hn2 : s.snake.length = s.snake_length + 1 := by omega
    rw [if_pos (by simp [hn2])]
    rw [List.drop_append_of_le_length (by omega)]
    rw [hn2, Nat.add_sub_cancel_left]

theorem advanceCore_board_eat (s : SnakeBoard)
    (hL1 : 1 ≤ s.snake_length) (hL2 : s.snake_length ≤ s.snake.length)
    (hL3 : s.snake.length ≤ s.snake_length + 1)
    (hate : (s.advanceCore).2 = true) (q : Int × Int) :
    (s.advanceCore).1.board q =
      if q ∈ s.snake.drop (s.snake.length - s.snake_length) then Cell.S0
      else if q = (s.newRow, s.newCol) then Cell.S1
      else if q = (s.snake_row, s.snake_col) then Cell.N
      else s.board q := by
  have hsn : (if (s.snake ++ [(s.newRow, s.newCol)]).length > s.snake_length + 1
        then (s.snake ++ [(s.newRow, s.newCol)]).drop 1
        else s.snake ++ [(s.newRow, s.newCol)]) =
      s.snake.drop (s.snake.length - s.snake_length) ++
        [(s.newRow, s.newCol)] := advanceCore_snake_eq s hL2 hL3
  have hate2 : decide (setCell s.board (s.snake_row, s.snake_col) Cell.N
      (s.newRow, s.newCol) = Cell.A) = true := hate
  have hobLen : (s.snake.drop (s.snake.length - s.snake_length)).length =
      s.snake_length := by
    rw [List.length_drop]; omega
  show writeAll (writeAll (setCell (setCell s.board (s.snake_row, s.snake_col)
      Cell.N) (s.newRow, s.newCol) Cell.S1) _ Cell.S0) _ Cell.N q = _
  rw [hsn, hate2]
  simp only [if_true, Bool.true_eq]
  rw [writeAll_apply, writeAll_apply, setCell_apply, setCell_apply]
  have hclear : ((List.range ((s.snake.drop (s.snake.length - s.snake_length) ++
      [(s.newRow, s.newCol)]).length - (s.snake_length + 1))).reverse.map
        fun i => (s.snake.drop (s.snake.length - s.snake_length) ++
          [(s.newRow, s.newCol)]).getD i (0, 0)) = [] := by
    have : (s.snake.drop (s.snake.length - s.snake_length) ++
        [(s.newRow, s.newCol)]).length - (s.snake_length + 1) = 0 := by
      simp [hobLen]
    rw [this]
    rfl
  rw [hclear]
  have htag := mem_tag_positions (s.snake.drop (s.snake.length - s.snake_length))
    (s.newRow, s.newCol) (s.snake_length + 1) (by omega) q
  rw [hobLen] at htag
  simp only [Nat.sub_self, List.drop_zero] at htag
  simp only [List.not_mem_nil, if_false, htag]

theorem advanceCore_board_noeat (s : SnakeBoard)
    (hL1 : 1 ≤ s.snake_length) (hL2 : s.snake_length ≤ s.snake.length)
    (hL3 : s.snake.length ≤ s.snake_length + 1)
    (hate : (s.advanceCore).2 = false) (q : Int × Int) :
    (s.advanceCore).1.board q =
      if q ∈ (s.snake.drop (s.snake.length - s.snake_length)).take 1 then
        Cell.N
      else if q ∈ (s.snake.drop (s.snake.length - s.snake_length)).drop 1 then
        Cell.S0
      else if q = (s.newRow, s.newCol) then Cell.S1
      else if q = (s.snake_row, s.snake_col) then Cell.N
      else s.board q := by
  have hsn : (if (s.snake ++ [(s.newRow, s.newCol)]).length > s.snake_length + 1
        then (s.snake ++ [(s.newRow, s.newCol)]).drop 1
        else s.snake ++ [(s.newRow, s.newCol)]) =
      s.snake.drop (s.snake.length - s.snake_length) ++
        [(s.newRow, s.newCol)] := advanceCore_snake_eq s hL2 hL3
  have hate2 : decide (setCell s.board (s.snake_row, s.snake_col) Cell.N
      (s.newRow, s.newCol) = Cell.A) = false := hate
  have hobLen : (s.snake.drop (s.snake.length - s.snake_length)).length =
      s.snake_length := by
    rw [List.length_drop]; omega
  obtain ⟨x, xs, hx⟩ := List.exists_cons_of_ne_nil
    (by intro hnil; rw [hnil] at hobLen; simp at hobLen; omega :
      s.snake.drop (s.snake.length - s.snake_length) ≠ [])
  show writeAll (writeAll (setCell (setCell s.board (s.snake_row, s.snake_col)
      Cell.N) (s.newRow, s.newCol) Cell.S1) _ Cell.S0) _ Cell.N q = _
  rw [hsn, hate2]
  simp only [Bool.false_eq_true, if_false]
  rw [writeAll_apply, writeAll_apply, setCell_apply, setCell_apply]
  have hclear : ((List.range ((s.snake.drop (s.snake.length - s.snake_length) ++
      [(s.newRow, s.newCol)]).length - s.snake_length)).reverse.map
        fun i => (s.snake.drop (s.snake.length - s.snake_length) ++
          [(s.newRow, s.newCol)]).getD i (0, 0)) = [x] := by
    have h1 : (s.snake.drop (s.snake.length - s.snake_length) ++
        [(s.newRow, s.newCol)]).length - s.snake_length = 1 := by
      simp [hobLen]
    rw [h1, hx]
    rfl
  rw [hclear]
  have htag := mem_tag_positions (s.snake.drop (s.snake.length - s.snake_length))
    (s.newRow, s.newCol) s.snake_length (by omega) q
  rw [hobLen] at htag
  have h2 : s.snake_length + 1 - s.snake_length = 1 := by omega
  rw [h2] at htag
  simp only [htag]
  have hmemx : (q ∈ [x]) =
      (q ∈ (s.snake.drop (s.snake.length - s.snake_length)).take 1) := by
    rw [hx]
    simp
  simp only [hmemx]

theorem advanceCore_apple_row (s : SnakeBoard) :
    (s.advanceCore).1.apple_row = s.apple_row := rfl

theorem advanceCore_apple_col (s : SnakeBoard) :
    (s.advanceCore).1.apple_col = s.apple_col := rfl

theorem next_success_elim (s : SnakeBoard) (picks : List (Int × Int))
    (pr : SnakeBoard × Option Bool) (hnext : s.next picks = some pr)
    (hr : pr.2 ≠ some true) :
    (0 ≤ s.newRow ∧ s.newRow < s.row) ∧ (0 ≤ s.newCol ∧ s.newCol < s.col) ∧
    ¬s.board (s.newRow, s.newCol) = Cell.S0 ∧
    (((s.advanceCore).2 = true ∧
        ∃ ap, (s.advanceCore).1.board ap = Cell.N ∧ ap ∈ picks ∧
          pr = ({ (s.advanceCore).1 with
                  board := setCell (s.advanceCore).1.board ap Cell.A,
                  apple_row := ap.1, apple_col := ap.2,
                  move_lock := false }, none)) ∨
     ((s.advanceCore).2 = false ∧
        pr = ({ (s.advanceCore).1 with move_lock := false }, none))) := by
  rw [SnakeBoard.next] at hnext
  simp only
    [show SnakeBoard.newRow { s with move_lock := false } = s.newRow from rfl,
     show SnakeBoard.newCol { s with move_lock := false } = s.newCol from rfl,
     show ({ s with move_lock := false } : SnakeBoard).row = s.row from rfl,
     show ({ s with move_lock := false } : SnakeBoard).col = s.col from rfl,
     show ({ s with move_lock := false } : SnakeBoard).board = s.board from rfl]
    at hnext
  by_cases h1 : ¬(0 ≤ s.newRow ∧ s.newRow < s.row) ∨
      ¬(0 ≤ s.newCol ∧ s.newCol < s.col)
  · rw [if_pos h1] at hnext
    exact absurd (by rw [← Option.some.inj hnext]) hr
  · rw [if_neg h1] at hnext
    push_neg at h1
    by_cases h2 : s.board (s.newRow, s.newCol) = Cell.S0
    · rw [if_pos h2] at hnext
      exact absurd (by rw [← Option.some.inj hnext]) hr
    · rw [if_neg h2] at hnext
      refine ⟨h1.1, h1.2, h2, ?_⟩
      rw [show ({ s with move_lock := false } : SnakeBoard).advanceCore =
        ({ (s.advanceCore).1 with move_lock := false },
          (s.advanceCore).2) from rfl] at hnext
      by_cases hate : (s.advanceCore).2 = true
      · rw [hate, if_pos rfl] at hnext
        cases hg : SnakeBoard.generate_apple
            { (s.advanceCore).1 with move_lock := false } picks with
        | none => rw [hg] at hnext; exact absurd hnext (by simp)
        | some u =>
            rw [hg] at hnext
            rcases generate_apple_some _ _ _ hg with ⟨ap, _, hN, hmem, hu⟩
            refine Or.inl ⟨hate, ap, hN, hmem, ?_⟩
            rw [← Option.some.inj hnext, hu]
      · rw [Bool.not_eq_true] at hate
        rw [hate, if_neg (by simp)] at hnext
        exact Or.inr ⟨hate, (Option.some.inj hnext).symm⟩

/-! ### The tick preserves the internal invariant -/

theorem next_preserves_inv (s : SnakeBoard) (picks : List (Int × Int))
    (pr : SnakeBoard × Option Bool) (hInv : SnakeInv s)
    (hdir : s.snake_direction ≠ (0, 0))
    (hpicks : ∀ p ∈ picks, inB s.row s.col p)
    (hnext : s.next picks = some pr) (hr : pr.2 ≠ some true) :
    SnakeInv pr.1 := by
  obtain ⟨hbr, hbc, hnS0, hcases⟩ := next_success_elim s picks pr hnext hr
  have hInv' : InvOn s.row s.col s.board s.snake s.snake_length s.snake_row
      s.snake_col s.apple_row s.apple_col := hInv
  obtain ⟨hL1, hL2, hL3, hnd, hbnd, hlast, hS1, hS0, hA, hApB, hstale,
    hrow, hcol⟩ := hInv'
  have hgrid : ∀ p : Int × Int,
      p ∈ gridCells s.row s.col ↔ inB s.row s.col p :=
    mem_gridCells s.row s.col (by omega) (by omega)
  have hobLen : (s.snake.drop (s.snake.length - s.snake_length)).length =
      s.snake_length := by
    rw [List.length_drop]; omega
  have hnew_mem : (s.newRow, s.newCol) ∈ gridCells s.row s.col :=
    (hgrid _).2 ⟨hbr.1, hbr.2, hbc.1, hbc.2⟩
  have hdir' : s.snake_direction.1 ≠ 0 ∨ s.snake_direction.2 ≠ 0 := by
    by_contra hcon
    push_neg at hcon
    exact hdir (Prod.ext hcon.1 hcon.2)
  have hnewne : (s.newRow, s.newCol) ≠ (s.snake_row, s.snake_col) := by
    intro h
    rw [Prod.mk.injEq] at h
    obtain ⟨ha, hb⟩ := h
    rw [SnakeBoard.newRow] at ha
    rw [SnakeBoard.newCol] at hb
    rcases hdir' with h | h
    · exact h (by omega)
    · exact h (by omega)
  obtain ⟨ys, hys⟩ := List.getLast?_eq_some_iff.1 hlast
  have hyslen : s.snake.length = ys.length + 1 := by rw [hys]; simp
  have hheadOb : (s.snake_row, s.snake_col) ∈
      s.snake.drop (s.snake.length - s.snake_length) := by
    rw [hys, List.drop_append_of_le_length (by simp; omega)]
    simp
  have hnewnotob : (s.newRow, s.newCol) ∉
      s.snake.drop (s.snake.length - s.snake_length) := by
    intro hmem
    by_cases hh : (s.newRow, s.newCol) = (s.snake_row, s.snake_col)
    · exact hnewne hh
    · exact hnS0 ((hS0 _ hnew_mem).2 ⟨hmem, hh⟩)
  have hsneq : (s.advanceCore).1.snake =
      s.snake.drop (s.snake.length - s.snake_length) ++
        [(s.newRow, s.newCol)] := advanceCore_snake_eq s hL2 hL3
  have happgrid : (s.apple_row, s.apple_col) ∈ gridCells s.row s.col :=
    (hgrid _).2 hApB
  have happN : s.board (s.apple_row, s.apple_col) = Cell.A :=
    (hA _ happgrid).2 rfl
  have happneold : (s.apple_row, s.apple_col) ≠ (s.snake_row, s.snake_col) := by
    intro h
    have h2 := (hS1 _ happgrid).2 h
    rw [happN] at h2
    exact Cell.noConfusion h2
  have happnotob : (s.apple_row, s.apple_col) ∉
      s.snake.drop (s.snake.length - s.snake_length) := by
    intro hmem
    have h2 := (hS0 _ happgrid).2 ⟨hmem, happneold⟩
    rw [happN] at h2
    exact Cell.noConfusion h2
  rcases hcases with ⟨hate, ap, hapN, hapmem, hpr⟩ | ⟨hate, hpr⟩
  · -- the tick ate the apple
    have hA_new : s.board (s.newRow, s.newCol) = Cell.A := by
      have h1 : decide (setCell s.board (s.snake_row, s.snake_col) Cell.N
          (s.newRow, s.newCol) = Cell.A) = true := by
        rw [← advanceCore_ate]; exact hate
      have h2 := of_decide_eq_true h1
      rwa [setCell_apply, if_neg hnewne] at h2
    have happle_eq : (s.apple_row, s.apple_col) = (s.newRow, s.newCol) :=
      ((hA _ hnew_mem).1 hA_new).symm
    have hlen2 : (s.advanceCore).1.snake_length = s.snake_length + 1 := by
      rw [advanceCore_length, hate]
      rfl
    have hchar := fun q => advanceCore_board_eat s hL1 hL2 hL3 hate q
    have hapnotob : ap ∉ s.snake.drop (s.snake.length - s.snake_length) := by
      intro hmem
      have h2 := hchar ap
      rw [if_pos hmem] at h2
      rw [h2] at hapN
      exact Cell.noConfusion hapN
    have hapnew : ap ≠ (s.newRow, s.newCol) := by
      intro h
      have h2 := hchar ap
      rw [if_neg hapnotob, if_pos h] at h2
      rw [h2] at hapN
      exact Cell.noConfusion hapN
    have hapB : inB s.row s.col ap := hpicks ap hapmem
    rw [hpr]
    show InvOn s.row s.col (setCell ((s.advanceCore).1.board) ap Cell.A)
      ((s.advanceCore).1.snake) ((s.advanceCore).1.snake_length)
      s.newRow s.newCol ap.1 ap.2
    rw [hsneq, hlen2]
    unfold InvOn
    rw [show (s.snake.drop (s.snake.length - s.snake_length) ++
        [(s.newRow, s.newCol)]).length - (s.snake_length + 1) = 0 from
      by simp [hobLen]]
    simp only [List.drop_zero, List.take_zero, Prod.mk.eta]
    refine ⟨by omega, ?_, ?_, ?_, ?_, ?_, ?_, ?_, ?_, hapB, ?_, hrow, hcol⟩
    · simp [hobLen]
    · simp [hobLen]
    · refine List.nodup_append.2 ⟨hnd, by simp, ?_⟩
      intro a ha hb
      rw [List.mem_singleton] at hb
      exact hnewnotob (hb ▸ ha)
    · intro p hp
      rcases List.mem_append.1 hp with h | h
      · exact hbnd p h
      · rw [List.mem_singleton] at h
        subst h
        exact ⟨hbr.1, hbr.2, hbc.1, hbc.2⟩
    · exact List.getLast?_concat _
    · intro p hp
      rw [setCell_apply]
      by_cases hpap : p = ap
      · rw [if_pos hpap]
        exact ⟨fun h => absurd h (by decide),
          fun h => absurd (hpap.symm.trans h) hapnew⟩
      · rw [if_neg hpap, hchar p]
        split_ifs with hc1 hc2 hc3
        · exact ⟨fun h => absurd h (by decide),
            fun h => absurd (h ▸ hc1) hnewnotob⟩
        · simp [hc2]
        · exact absurd (by rw [hc3]; exact hheadOb) hc1
        · exact ⟨fun h => absurd ((hS1 p hp).1 h) hc3, fun h => absurd h hc2⟩
    · intro p hp
      rw [setCell_apply]
      by_cases hpap : p = ap
      · rw [if_pos hpap]
        constructor
        · intro h; exact absurd h (by decide)
        · rintro ⟨hmem, hne⟩
          rcases List.mem_append.1 hmem with h | h
          · exact absurd (hpap ▸ h) hapnotob
          · exact absurd (List.mem_singleton.1 h) hne
      · rw [if_neg hpap, hchar p]
        split_ifs with hc1 hc2 hc3
        · exact ⟨fun _ => ⟨List.mem_append_left _ hc1,
            fun h => hnewnotob (h ▸ hc1)⟩, fun _ => rfl⟩
        · exact ⟨fun h => absurd h (by decide),
            fun h => absurd hc2 h.2⟩
        · exact absurd (by rw [hc3]; exact hheadOb) hc1
        · constructor
          · intro h
            exact absurd ((hS0 p hp).1 h).1 hc1
          · rintro ⟨hmem, hne⟩
            rcases List.mem_append.1 hmem with h | h
            · exact absurd h hc1
            · exact absurd (List.mem_singleton.1 h) hne
    · intro p hp
      rw [setCell_apply]
      by_cases hpap : p = ap
      · rw [if_pos hpap]
        simp [hpap]
      · rw [if_neg hpap, hchar p]
        split_ifs with hc1 hc2 hc3
        · exact ⟨fun h => absurd h (by decide), fun h => absurd h hpap⟩
        · exact ⟨fun h => absurd h (by decide), fun h => absurd h hpap⟩
        · exact absurd (by rw [hc3]; exact hheadOb) hc1
        · constructor
          · intro h
            have h2 := (hA p hp).1 h
            rw [happle_eq] at h2
            exact absurd h2 hc2
          · intro h
            exact absurd h hpap
    · intro p hp
      simp at hp
  · -- the tick did not eat
    have hlen2 : (s.advanceCore).1.snake_length = s.snake_length := by
      rw [advanceCore_length, hate]
      rfl
    have hnotA : s.board (s.newRow, s.newCol) ≠ Cell.A := by
      have h1 : decide (setCell s.board (s.snake_row, s.snake_col) Cell.N
          (s.newRow, s.newCol) = Cell.A) = false := by
        rw [← advanceCore_ate]; exact hate
      have h2 := of_decide_eq_false h1
      rwa [setCell_apply, if_neg hnewne] at h2
    have hchar := fun q => advanceCore_board_noeat s hL1 hL2 hL3 hate q
    obtain ⟨x, xs, hob⟩ := List.exists_cons_of_ne_nil
      (show s.snake.drop (s.snake.length - s.snake_length) ≠ [] from by
        intro h
        rw [h] at hobLen
        simp at hobLen
        omega)
    have hxob : x ∈ s.snake.drop (s.snake.length - s.snake_length) := by
      rw [hob]; exact List.mem_cons_self x xs
    have hndx := hnd
    rw [hob, List.nodup_cons] at hndx
    obtain ⟨hxnxs, hndxs⟩ := hndx
    have hnewnx : (s.newRow, s.newCol) ≠ x := fun h =>
      hnewnotob (h.symm ▸ hxob)
    have hnewnxs : (s.newRow, s.newCol) ∉ xs := fun h =>
      hnewnotob (by rw [hob]; exact List.mem_cons_of_mem _ h)
    have hxsl : xs.length + 1 = s.snake_length := by
      rw [hob] at hobLen
      simpa using hobLen
    rw [hpr]
    show InvOn s.row s.col ((s.advanceCore).1.board)
      ((s.advanceCore).1.snake) ((s.advanceCore).1.snake_length)
      s.newRow s.newCol s.apple_row s.apple_col
    rw [hsneq, hlen2, hob, List.cons_append]
    unfold InvOn
    rw [show (x :: (xs ++ [(s.newRow, s.newCol)])).length - s.snake_length = 1
      from by simp; omega]
    simp only [List.drop_succ_cons, List.drop_zero, List.take_succ_cons,
      List.take_zero]
    refine ⟨by omega, ?_, ?_, ?_, ?_, ?_, ?_, ?_, ?_, hApB, ?_, hrow, hcol⟩
    · simp; omega
    · simp; omega
    · refine List.nodup_append.2 ⟨hndxs, by simp, ?_⟩
      intro a ha hb
      rw [List.mem_singleton] at hb
      exact hnewnxs (hb ▸ ha)
    · intro p hp
      rcases List.mem_append.1 hp with h | h
      · exact hbnd p (by rw [hob]; exact List.mem_cons_of_mem _ h)
      · rw [List.mem_singleton] at h
        subst h
        exact ⟨hbr.1, hbr.2, hbc.1, hbc.2⟩
    · rw [← List.cons_append]
      exact List.getLast?_concat _
    · intro p hp
      have hcharp := hchar p
      rw [hob] at hcharp
      simp only [List.take_succ_cons, List.take_zero, List.drop_succ_cons,
        List.drop_zero] at hcharp
      rw [hcharp]
      split_ifs with hc1 hc2 hc3 hc4
      · have hpx := List.mem_singleton.1 hc1
        exact ⟨fun h => absurd h (by decide),
          fun h => absurd (hpx.symm.trans h).symm hnewnx⟩
      · exact ⟨fun h => absurd h (by decide),
          fun h => absurd (h ▸ hc2) hnewnxs⟩
      · simp [hc3]
      · exfalso
        have h5 : p ∈ x :: xs := by
          rw [hc4, ← hob]
          exact hheadOb
        rcases List.mem_cons.1 h5 with h6 | h6
        · exact hc1 (List.mem_singleton.2 h6)
        · exact hc2 h6
      · exact ⟨fun h => absurd ((hS1 p hp).1 h) hc4, fun h => absurd h hc3⟩
    · intro p hp
      have hcharp := hchar p
      rw [hob] at hcharp
      simp only [List.take_succ_cons, List.take_zero, List.drop_succ_cons,
        List.drop_zero] at hcharp
      rw [hcharp]
      split_ifs with hc1 hc2 hc3 hc4
      · have hpx := List.mem_singleton.1 hc1
        constructor
        · intro h; exact absurd h (by decide)
        · rintro ⟨hmem, hne⟩
          rcases List.mem_append.1 hmem with h | h
          · exact absurd (hpx ▸ h) hxnxs
          · exact absurd (List.mem_singleton.1 h) hne
      · exact ⟨fun _ => ⟨List.mem_append_left _ hc2,
          fun h => hnewnxs (h ▸ hc2)⟩, fun _ => rfl⟩
      · exact ⟨fun h => absurd h (by decide), fun h => absurd hc3 h.2⟩
      · exfalso
        have h5 : p ∈ x :: xs := by
          rw [hc4, ← hob]
          exact hheadOb
        rcases List.mem_cons.1 h5 with h6 | h6
        · exact hc1 (List.mem_singleton.2 h6)
        · exact hc2 h6
      · constructor
        · intro h
          have h7 := ((hS0 p hp).1 h).1
          rw [hob] at h7
          rcases List.mem_cons.1 h7 with h8 | h8
          · exact absurd (List.mem_singleton.2 h8) hc1
          · exact absurd h8 hc2
        · rintro ⟨hmem, hne⟩
          rcases List.mem_append.1 hmem with h | h
          · exact absurd h hc2
          · exact absurd (List.mem_singleton.1 h) hc3
    · intro p hp
      have hcharp := hchar p
      rw [hob] at hcharp
      simp only [List.take_succ_cons, List.take_zero, List.drop_succ_cons,
        List.drop_zero] at hcharp
      rw [hcharp]
      split_ifs with hc1 hc2 hc3 hc4
      · have hpx := List.mem_singleton.1 hc1
        constructor
        · intro h; exact absurd h (by decide)
        · intro h
          exact happnotob ((hpx.symm.trans h).symm ▸ hxob)
      · constructor
        · intro h; exact absurd h (by decide)
        · intro h
          have h9 : p ∈ s.snake.drop (s.snake.length - s.snake_length) := by
            rw [hob]
            exact List.mem_cons_of_mem _ hc2
          exact happnotob (h ▸ h9)
      · constructor
        · intro h; exact absurd h (by decide)
        · intro h
          exact hnotA ((hA _ hnew_mem).2 (hc3.symm.trans h))
      · exfalso
        have h5 : p ∈ x :: xs := by
          rw [hc4, ← hob]
          exact hheadOb
        rcases List.mem_cons.1 h5 with h6 | h6
        · exact hc1 (List.mem_singleton.2 h6)
        · exact hc2 h6
      · exact hA p hp
    · intro p hp
      have hpx := List.mem_singleton.1 hp
      subst hpx
      have hcharx := hchar p
      rw [hob] at hcharx
      simp only [List.take_succ_cons, List.take_zero, List.drop_succ_cons,
        List.drop_zero] at hcharx
      rw [if_pos (List.mem_singleton.2 rfl)] at hcharx
      refine ⟨hbnd p hxob, ?_, ?_⟩
      · rw [hcharx]; decide
      · rw [hcharx]; decide

/-! ### Construction establishes the invariant -/

theorem init_ok_elim (row col : Int) (hp : Int × Int)
    (picks : List (Int × Int)) (s : SnakeBoard)
    (h : SnakeBoard.init row col hp picks = InitResult.ok s) :
    ¬(row < 2 ∨ col < 2) ∧
    ∃ ap, setCell (fun _ => Cell.N) hp Cell.S1 ap = Cell.N ∧ ap ∈ picks ∧
      s = { row := row, col := col,
            board := setCell (setCell (fun _ => Cell.N) hp Cell.S1) ap Cell.A,
            snake_direction := (0, 0), snake_row := hp.1, snake_col := hp.2,
            snake := [hp], snake_length := 1, end_ := false,
            apple_row := ap.1, apple_col := ap.2, move_lock := false } := by
  rw [SnakeBoard.init] at h
  by_cases hd : row < 2 ∨ col < 2
  · rw [if_pos hd] at h
    exact InitResult.noConfusion h
  · rw [if_neg hd] at h
    refine ⟨hd, ?_⟩
    cases hg : (SnakeBoard.initState row col hp).generate_apple picks with
    | none =>
        rw [hg] at h
        exact InitResult.noConfusion h
    | some t =>
        rw [hg] at h
        have h2 : t = s := by
          cases h
          rfl
        rcases generate_apple_some _ _ _ hg with ⟨ap, _, hN, hmem, ht⟩
        refine ⟨ap, hN, hmem, ?_⟩
        rw [← h2, ht]
        rfl

theorem init_ok_inv (row col : Int) (hp : Int × Int)
    (picks : List (Int × Int)) (s : SnakeBoard)
    (hhp : inB row col hp) (hpicks : ∀ p ∈ picks, inB row col p)
    (h : SnakeBoard.init row col hp picks = InitResult.ok s) : SnakeInv s := by
  obtain ⟨hd, ap, hapN, hapmem, hs⟩ := init_ok_elim row col hp picks s h
  push_neg at hd
  have hapne : ap ≠ hp := by
    intro he
    rw [setCell_apply, if_pos he] at hapN
    exact Cell.noConfusion hapN
  have hapB : inB row col ap := hpicks ap hapmem
  subst hs
  show InvOn row col (setCell (setCell (fun _ => Cell.N) hp Cell.S1) ap Cell.A)
    [hp] 1 hp.1 hp.2 ap.1 ap.2
  unfold InvOn
  simp only [List.length_singleton, Nat.sub_self, List.drop_zero,
    List.take_zero, Prod.mk.eta]
  refine ⟨le_refl 1, le_refl 1, by omega, by simp, ?_, by simp, ?_, ?_, ?_,
    hapB, by simp, by omega, by omega⟩
  · intro p hp2
    rw [List.mem_singleton] at hp2
    subst hp2
    exact hhp
  · intro p hp2
    rw [setCell_apply, setCell_apply]
    by_cases h1 : p = ap
    · rw [if_pos h1]
      exact ⟨fun h => absurd h (by decide),
        fun h => absurd (h1.symm.trans h) hapne⟩
    · rw [if_neg h1]
      by_cases h2 : p = hp
      · rw [if_pos h2]
        simp [h2]
      · rw [if_neg h2]
        exact ⟨fun h => absurd h (by decide), fun h => absurd h h2⟩
  · intro p hp2
    rw [setCell_apply, setCell_apply]
    constructor
    · intro h
      by_cases h1 : p = ap
      · rw [if_pos h1] at h
        exact absurd h (by decide)
      · rw [if_neg h1] at h
        by_cases h2 : p = hp
        · rw [if_pos h2] at h
          exact absurd h (by decide)
        · rw [if_neg h2] at h
          exact absurd h (by decide)
    · rintro ⟨hm, hne⟩
      exact absurd (List.mem_singleton.1 hm) hne
  · intro p hp2
    rw [setCell_apply, setCell_apply]
    by_cases h1 : p = ap
    · rw [if_pos h1]
      simp [h1]
    · rw [if_neg h1]
      by_cases h2 : p = hp
      · rw [if_pos h2]
        exact ⟨fun h => absurd h (by decide), fun h => absurd h h1⟩
      · rw [if_neg h2]
        exact ⟨fun h => absurd h (by decide), fun h => absurd h h1⟩

/-! ### Reachable states satisfy the invariants -/

theorem reachableA_inv : ∀ s, ReachableA s → SnakeInv s := by
  intro s h
  induction h with
  | init row col hp picks s hhp hpicks hok =>
      exact init_ok_inv row col hp picks s hhp hpicks hok
  | dir s d hs hd ih =>
      unfold SnakeInv
      rw [update_direction_row, update_direction_col, update_direction_board,
        update_direction_snake, update_direction_snake_length,
        update_direction_snake_row, update_direction_snake_col,
        update_direction_apple_row, update_direction_apple_col]
      exact ih
  | step s picks pr hs hdir hpicks hnext hr ih =>
      exact next_preserves_inv s picks pr ih hdir hpicks hnext hr

theorem snakeInv_specInv (s : SnakeBoard) (h : SnakeInv s) : SpecInv s := by
  have h' : InvOn s.row s.col s.board s.snake s.snake_length s.snake_row
      s.snake_col s.apple_row s.apple_col := h
  obtain ⟨hL1, hL2, hL3, hnd, hbnd, hlast, hS1, hS0, hA, hApB, hstale,
    hrow, hcol⟩ := h'
  have hgrid : ∀ p : Int × Int,
      p ∈ gridCells s.row s.col ↔ inB s.row s.col p :=
    mem_gridCells s.row s.col (by omega) (by omega)
  have hobLen : (s.snake.drop (s.snake.length - s.snake_length)).length =
      s.snake_length := by
    rw [List.length_drop]; omega
  obtain ⟨ys, hys⟩ := List.getLast?_eq_some_iff.1 hlast
  have hyslen : s.snake.length = ys.length + 1 := by rw [hys]; simp
  have hheadOb : (s.snake_row, s.snake_col) ∈
      s.snake.drop (s.snake.length - s.snake_length) := by
    rw [hys, List.drop_append_of_le_length (by simp; omega)]
    simp
  have hheadgrid : (s.snake_row, s.snake_col) ∈ gridCells s.row s.col :=
    (hgrid _).2 (hbnd _ hheadOb)
  have hStag : ∀ p ∈ gridCells s.row s.col,
      isSnakeTag (s.board p) = true ↔
        p ∈ s.snake.drop (s.snake.length - s.snake_length) := by
    intro p hp
    constructor
    · intro ht
      cases hcell : s.board p with
      | S1 => exact ((hS1 p hp).1 hcell) ▸ hheadOb
      | S0 => exact ((hS0 p hp).1 hcell).1
      | A => rw [hcell] at ht; exact Bool.noConfusion ht
      | N => rw [hcell] at ht; exact Bool.noConfusion ht
    · intro hm
      by_cases hh : p = (s.snake_row, s.snake_col)
      · rw [(hS1 p hp).2 hh]
        rfl
      · rw [(hS0 p hp).2 ⟨hm, hh⟩]
        rfl
  unfold SpecInv countSnake countHead lastSeg staleSeg
  refine ⟨?_, ?_, (hS1 _ hheadgrid).2 rfl, hStag, ?_, hL3⟩
  · have hcong : (gridCells s.row s.col).countP
        (fun p => isSnakeTag (s.board p)) =
        (gridCells s.row s.col).countP
          (fun p => decide
            (p ∈ s.snake.drop (s.snake.length - s.snake_length))) := by
      apply List.countP_congr
      intro p hp
      constructor
      · intro ht
        simpa using (hStag p hp).1 (by simpa using ht)
      · intro hm
        simpa using (hStag p hp).2 (by simpa using hm)
    rw [hcong, countP_mem_eq_length _ _ (gridCells_nodup s.row s.col) hnd
      (fun p hp => (hgrid p).2 (hbnd p hp)), hobLen]
  · apply countP_eq_one_of_unique _ (s.snake_row, s.snake_col)
      (gridCells_nodup s.row s.col) hheadgrid
    intro p hp
    rw [decide_eq_true_iff]
    exact hS1 p hp
  · intro p hp
    obtain ⟨_, h1, h2⟩ := hstale p hp
    cases hcell : s.board p with
    | S1 => exact absurd hcell h1
    | S0 => exact absurd hcell h2
    | A => rfl
    | N => rfl

/-! ### Claim theorems -/

/-- C1 (amended): in every state reachable from a successful construction by
any sequence of `update_direction` calls and non-terminating `next` ticks *in
which every tick is taken after a direction has been chosen* (nonzero
direction), the last `length` entries of the position history are exactly the
cells tagged `'S1'`/`'S0'` on the grid — the set of tagged cells has
cardinality exactly `length`, with the single `'S1'` at the current head
position — no earlier history entry is tagged, and the history retains at most
`length + 1` entries.  (The original claim, which also allows ticks before the
first direction command, is refuted by `C1_zero_direction_counterexample`.) -/
theorem C1_snake_invariant_amended (s : SnakeBoard) (h : ReachableA s) :
    SpecInv s :=
  snakeInv_specInv s (reachableA_inv s h)

/-- Witness for C1: a concrete 3 × 3 game, after construction, two direction
commands and one tick, satisfies the invariant. -/
theorem C1_snake_invariant_witness : ReachableA wStep3 ∧ SpecInv wStep3 := by
  have h0 : ReachableA wInit3 :=
    ReachableA.init 3 3 (1, 1) [(0, 0)] wInit3 (by decide) (by decide) rfl
  have h1 : ReachableA wDir3 := ReachableA.dir wInit3 (1, 0) h0 (by decide)
  have h2 : ReachableA wLock3 := ReachableA.dir wDir3 (0, 1) h1 (by decide)
  have h3 : ReachableA wStep3 :=
    ReachableA.step wLock3 [] (nextOut wLock3 []) h2 (by decide) (by decide)
      rfl (by decide)
  exact ⟨h3, C1_snake_invariant_amended wStep3 h3⟩

/-- Counterexample to C1 as stated: on a 2 × 2 board, one non-terminating
tick taken while the direction is still `(0, 0)` (allowed by the claim's "any
sequence") leaves the history with a duplicated entry and the trailing-clear
loop then erases the head tag, so the set of tagged cells has cardinality 0
while `length` is 1. -/
theorem C1_zero_direction_counterexample : ReachableO w1 ∧ ¬SpecInv w1 := by
  have h0 : ReachableO w0 :=
    ReachableO.init 2 2 (0, 0) [(1, 1)] w0 (by decide) (by decide) rfl
  have h1 : ReachableO w1 :=
    ReachableO.step w0 [] (nextOut w0 []) h0 (by decide) rfl (by decide)
  refine ⟨h1, ?_⟩
  intro hsp
  exact absurd hsp.1 (by decide)

/-- C2: the code contradicts the claim's (and its own docstring's) "returns
false": on a tick that does not end the game, `next` falls off the end of the
function and returns Python `None`, not `False`; on a terminal tick it does
return `True`.  Evaluated here on a 3 × 3 run (non-terminal tick) and a 2 × 2
run into the wall (terminal tick). -/
theorem C2_next_return_value :
    nextRet wDir3 [] = some none ∧
    (some (none : Option Bool)) ≠ some (some false) ∧
    (nextOut wDir3 []).1.end_ = false ∧
    nextRet wCrash [] = some (some true) :=
  ⟨by decide, by decide, by decide, by decide⟩

/-- Counterexample to C3 as stated: with direction `(1, 0)` and the move-lock
clear, re-choosing `(1, 0)` — a unit vector that is not the exact reverse —
is rejected (the negated zero axis equals the current zero axis), so the
move-lock is not set and the state does not change, where the claim requires
acceptance with the lock set. -/
theorem C3_same_direction_counterexample :
    wDir3.move_lock = false ∧ wDir3.snake_direction = (1, 0) ∧
    (wDir3.update_direction (1, 0)).move_lock = false ∧
    wDir3.update_direction (1, 0) = wDir3 :=
  ⟨by decide, by decide, by decide, rfl⟩

/-- C3 (amended): for every state with a unit-vector direction and the
move-lock clear, a `update_direction` call with either perpendicular unit
vector (any unit vector other than the current direction and its exact
reverse) is accepted — it sets the new direction and the move-lock — while
re-choosing the current direction is a no-op that leaves the state, and in
particular the lock, unchanged. -/
theorem C3_direction_acceptance_amended (s : SnakeBoard) (d : Int × Int)
    (hl : s.move_lock = false) (hcur : s.snake_direction ∈ unitDirs)
    (hd : d ∈ unitDirs) :
    (d ≠ s.snake_direction →
      d ≠ (-s.snake_direction.1, -s.snake_direction.2) →
      (s.update_direction d).snake_direction = d ∧
        (s.update_direction d).move_lock = true) ∧
    (d = s.snake_direction → s.update_direction d = s) := by
  constructor
  · intro h1 h2
    exact update_direction_accepts s d hl hcur hd h1 h2
  · intro h1
    rw [h1]
    exact update_direction_same s hl hcur

/-- Witness for C3 (amended), at the concrete state `wDir3` (direction
`(1, 0)`, lock clear) with the perpendicular request `(0, 1)`. -/
theorem C3_direction_acceptance_witness :
    wDir3.move_lock = false ∧ wDir3.snake_direction ∈ unitDirs ∧
    ((0, 1) : Int × Int) ∈ unitDirs ∧
    ((((0, 1) : Int × Int)) ≠ wDir3.snake_direction →
      (((0, 1) : Int × Int)) ≠
        (-wDir3.snake_direction.1, -wDir3.snake_direction.2) →
      (wDir3.update_direction (0, 1)).snake_direction = (0, 1) ∧
        (wDir3.update_direction (0, 1)).move_lock = true) ∧
    ((((0, 1) : Int × Int)) = wDir3.snake_direction →
      wDir3.update_direction (0, 1) = wDir3) :=
  ⟨by decide, by decide, by decide,
   (C3_direction_acceptance_amended wDir3 (0, 1) (by decide) (by decide)
     (by decide)).1,
   (C3_direction_acceptance_amended wDir3 (0, 1) (by decide) (by decide)
     (by decide)).2⟩

/-- C4: while a direction is set, `update_direction` with the exact reverse
of the current direction (both axes negated) is always rejected: the call
returns the state completely unchanged — direction, move-lock and all. -/
theorem C4_reverse_rejected (s : SnakeBoard)
    (h : s.snake_direction ≠ (0, 0)) :
    s.update_direction
      (-s.snake_direction.1, -s.snake_direction.2) = s := by
  by_cases hl : s.move_lock = true
  · exact update_direction_locked s _ hl
  · rw [Bool.not_eq_true] at hl
    simp only [SnakeBoard.update_direction, hl, h, neg_neg]
    simp

/-- Witness for C4 at the concrete state `wDir3` (direction `(1, 0)`). -/
theorem C4_reverse_rejected_witness :
    wDir3.snake_direction ≠ (0, 0) ∧
    wDir3.update_direction
      (-wDir3.snake_direction.1, -wDir3.snake_direction.2) = wDir3 :=
  ⟨by decide, C4_reverse_rejected wDir3 (by decide)⟩

/-- Counterexample to C5 as stated: after `next` has cleared the lock,
a `update_direction` call re-choosing the current direction `(0, 1)` — a
valid, non-reverse direction — does not succeed: the move-lock stays clear
(and the state is unchanged), where the claim requires the call to succeed. -/
theorem C5_same_direction_after_advance_counterexample :
    wStep3.move_lock = false ∧ wStep3.snake_direction = (0, 1) ∧
    (wStep3.update_direction (0, 1)).move_lock = false :=
  ⟨by decide, by decide, by decide⟩

/-- C5 (amended): once the move-lock is set, every further `update_direction`
call is a no-op; `next` clears the lock as its first step (whatever its
outcome); and after `next` a `update_direction` call with a perpendicular
direction — valid, neither the reverse nor a re-choice of the current
direction — succeeds, setting the direction and the lock. -/
theorem C5_move_lock_sequencing_amended (s : SnakeBoard) (d : Int × Int)
    (picks : List (Int × Int)) (pr : SnakeBoard × Option Bool)
    (d2 : Int × Int) (hl : s.move_lock = true)
    (hnext : s.next picks = some pr)
    (hcur : pr.1.snake_direction ∈ unitDirs) (hd2 : d2 ∈ unitDirs)
    (h1 : d2 ≠ pr.1.snake_direction)
    (h2 : d2 ≠ (-pr.1.snake_direction.1, -pr.1.snake_direction.2)) :
    s.update_direction d = s ∧ pr.1.move_lock = false ∧
    (pr.1.update_direction d2).snake_direction = d2 ∧
    (pr.1.update_direction d2).move_lock = true := by
  have hlock := next_move_lock s picks pr hnext
  exact ⟨update_direction_locked s d hl, hlock,
    (update_direction_accepts pr.1 d2 hlock hcur hd2 h1 h2).1,
    (update_direction_accepts pr.1 d2 hlock hcur hd2 h1 h2).2⟩

/-- Witness for C5 (amended): the locked state `wLock3`, its tick to
`wStep3`, and the perpendicular request `(1, 0)` afterwards. -/
theorem C5_move_lock_sequencing_witness :
    wLock3.move_lock = true ∧
    wLock3.next [] = some (nextOut wLock3 []) ∧
    (nextOut wLock3 []).1.snake_direction ∈ unitDirs ∧
    ((1, 0) : Int × Int) ∈ unitDirs ∧
    (((1, 0) : Int × Int)) ≠ (nextOut wLock3 []).1.snake_direction ∧
    (((1, 0) : Int × Int)) ≠ (-(nextOut wLock3 []).1.snake_direction.1,
      -(nextOut wLock3 []).1.snake_direction.2) ∧
    (wLock3.update_direction (0, -1) = wLock3 ∧
     (nextOut wLock3 []).1.move_lock = false ∧
     ((nextOut wLock3 []).1.update_direction (1, 0)).snake_direction =
       (1, 0) ∧
     ((nextOut wLock3 []).1.update_direction (1, 0)).move_lock = true) :=
  ⟨by decide, rfl, by decide, by decide, by decide, by decide,
   C5_move_lock_sequencing_amended wLock3 (0, -1) [] (nextOut wLock3 [])
     (1, 0) (by decide) rfl (by decide) (by decide) (by decide) (by decide)⟩

/-- C6: for every state whose next head position is out of bounds on either
axis or rests on a `'S0'` cell, `next` sets the termination flag, returns
`True`, and leaves the grid, the position history, the head position, the
length, the direction and the apple unchanged — the whole state is identical
except for the termination flag and the cleared move-lock. -/
theorem C6_collision_atomicity (s : SnakeBoard) (picks : List (Int × Int))
    (h : ¬(0 ≤ s.newRow ∧ s.newRow < s.row) ∨
         ¬(0 ≤ s.newCol ∧ s.newCol < s.col) ∨
         s.board (s.newRow, s.newCol) = Cell.S0) :
    s.next picks =
      some ({ s with end_ := true, move_lock := false }, some true) :=
  next_terminal s picks h

/-- Witness for C6: the 2 × 2 state `wCrash` (head `(0, 0)`, direction
`(-1, 0)`) whose next column `-1` is out of bounds. -/
theorem C6_collision_atomicity_witness :
    (¬(0 ≤ wCrash.newRow ∧ wCrash.newRow < wCrash.row) ∨
     ¬(0 ≤ wCrash.newCol ∧ wCrash.newCol < wCrash.col) ∨
     wCrash.board (wCrash.newRow, wCrash.newCol) = Cell.S0) ∧
    wCrash.next [] =
      some ({ wCrash with end_ := true, move_lock := false }, some true) :=
  ⟨by decide, C6_collision_atomicity wCrash [] (by decide)⟩

/-- C10 (implicit): a `next` call while the direction is still the zero
vector leaves the termination flag false and the head coordinates unchanged
(the hypotheses — head in bounds, head cell not tagged `'S0'`, game running —
hold in every state produced by construction before a direction command). -/
theorem C10_zero_direction_tick (s : SnakeBoard) (picks : List (Int × Int))
    (hdir : s.snake_direction = (0, 0))
    (hr1 : 0 ≤ s.snake_row ∧ s.snake_row < s.row)
    (hc1 : 0 ≤ s.snake_col ∧ s.snake_col < s.col)
    (hb : s.board (s.snake_row, s.snake_col) ≠ Cell.S0)
    (he : s.end_ = false) :
    ∃ s2, s.next picks = some (s2, none) ∧ s2.end_ = false ∧
      s2.snake_row = s.snake_row ∧ s2.snake_col = s.snake_col := by
  have hnr : s.newRow = s.snake_row := by
    rw [SnakeBoard.newRow, hdir]
    simp
  have hnc : s.newCol = s.snake_col := by
    rw [SnakeBoard.newCol, hdir]
    simp
  refine ⟨({ s with move_lock := false } : SnakeBoard).advanceCore.1,
    ?_, ?_, ?_, ?_⟩
  · rw [SnakeBoard.next]
    simp only
      [show SnakeBoard.newRow { s with move_lock := false } = s.newRow
        from rfl,
       show SnakeBoard.newCol { s with move_lock := false } = s.newCol
        from rfl,
       show ({ s with move_lock := false } : SnakeBoard).row = s.row from rfl,
       show ({ s with move_lock := false } : SnakeBoard).col = s.col from rfl,
       show ({ s with move_lock := false } : SnakeBoard).board = s.board
        from rfl]
    rw [if_neg (by push_neg; rw [hnr, hnc]; exact ⟨hr1, hc1⟩)]
    rw [if_neg (by rw [hnr, hnc]; exact hb)]
    have hate : ({ s with move_lock := false } : SnakeBoard).advanceCore.2 =
        false := by
      rw [show ({ s with move_lock := false } : SnakeBoard).advanceCore.2 =
        (s.advanceCore).2 from rfl, advanceCore_ate]
      rw [decide_eq_false_iff_not, hnr, hnc, setCell_apply, if_pos rfl]
      decide
    rw [hate]
    simp
  · rw [advanceCore_end]
    exact he
  · rw [advanceCore_snake_row]
    exact hnr
  · rw [advanceCore_snake_col]
    exact hnc

/-- Witness for C10: the freshly constructed 2 × 2 state `w0` ticked once
with its direction still `(0, 0)`. -/
theorem C10_zero_direction_tick_witness :
    w0.snake_direction = (0, 0) ∧
    (0 ≤ w0.snake_row ∧ w0.snake_row < w0.row) ∧
    (0 ≤ w0.snake_col ∧ w0.snake_col < w0.col) ∧
    w0.board (w0.snake_row, w0.snake_col) ≠ Cell.S0 ∧ w0.end_ = false ∧
    (∃ s2, w0.next [] = some (s2, none) ∧ s2.end_ = false ∧
      s2.snake_row = w0.snake_row ∧ s2.snake_col = w0.snake_col) :=
  ⟨by decide, by decide, by decide, by decide, by decide,
   C10_zero_direction_tick w0 [] (by decide) (by decide) (by decide)
     (by decide) (by decide)⟩

/-- C7: construction fails with `InvalidGridSizeException` exactly when
`rows < 2 or cols < 2`; for dimensions both at least 2 it can succeed (some
random draws produce a state) and every state it produces has exactly one
`'A'` cell, exactly one `'S1'` cell at an in-bounds head position, length 1,
direction `(0, 0)`, the move-lock clear and the termination flag false.  The
randomness hypotheses mirror the `random.randint` contract (draws in bounds);
success additionally requires the apple loop to find an empty cell among its
draws. -/
theorem C7_construction :
    (∀ (row col : Int) (hp : Int × Int) (picks : List (Int × Int)),
      row < 2 ∨ col < 2 →
        SnakeBoard.init row col hp picks = InitResult.invalidGridSize) ∧
    (∀ (row col : Int) (hp : Int × Int) (picks : List (Int × Int)),
      2 ≤ row → 2 ≤ col →
        SnakeBoard.init row col hp picks ≠ InitResult.invalidGridSize) ∧
    (∀ (row col : Int) (hp : Int × Int),
      2 ≤ row → 2 ≤ col →
        ∃ picks s, SnakeBoard.init row col hp picks = InitResult.ok s) ∧
    (∀ (row col : Int) (hp : Int × Int) (picks : List (Int × Int))
        (s : SnakeBoard),
      inB row col hp → (∀ p ∈ picks, inB row col p) →
      SnakeBoard.init row col hp picks = InitResult.ok s →
      countApple s = 1 ∧ countHead s = 1 ∧
      s.board (s.snake_row, s.snake_col) = Cell.S1 ∧
      inB s.row s.col (s.snake_row, s.snake_col) ∧
      s.snake_length = 1 ∧ s.snake_direction = (0, 0) ∧
      s.move_lock = false ∧ s.end_ = false) := by
  refine ⟨?_, ?_, ?_, ?_⟩
  · intro row col hp picks h
    rw [SnakeBoard.init, if_pos h]
  · intro row col hp picks h2r h2c
    rw [SnakeBoard.init, if_neg (by omega)]
    cases hg : (SnakeBoard.initState row col hp).generate_apple picks with
    | none => intro hcon; exact InitResult.noConfusion hcon
    | some t => intro hcon; exact InitResult.noConfusion hcon
  · intro row col hp h2r h2c
    have key : ∀ c : Int × Int, c ≠ hp →
        ∃ s, SnakeBoard.init row col hp [c] = InitResult.ok s := by
      intro c hc
      have hboard : (SnakeBoard.initState row col hp).board c = Cell.N := by
        show setCell (fun _ => Cell.N) hp Cell.S1 c = Cell.N
        rw [setCell_apply, if_neg hc]
      refine ⟨{ SnakeBoard.initState row col hp with
                board := setCell (SnakeBoard.initState row col hp).board c
                  Cell.A,
                apple_row := c.1, apple_col := c.2 }, ?_⟩
      rw [SnakeBoard.init, if_neg (by omega)]
      have hloop : genAppleLoop (SnakeBoard.initState row col hp).board [c] =
          some c := by
        show (if (SnakeBoard.initState row col hp).board c = Cell.N
          then some c
          else genAppleLoop (SnakeBoard.initState row col hp).board []) = _
        rw [if_pos hboard]
      rw [show (SnakeBoard.initState row col hp).generate_apple [c] =
        some { SnakeBoard.initState row col hp with
               board := setCell (SnakeBoard.initState row col hp).board c
                 Cell.A,
               apple_row := c.1, apple_col := c.2 } from by
        rw [SnakeBoard.generate_apple, hloop]]
    by_cases hh : hp = (0, 0)
    · obtain ⟨s, hs⟩ := key (0, 1) (by rw [hh]; decide)
      exact ⟨[(0, 1)], s, hs⟩
    · obtain ⟨s, hs⟩ := key (0, 0) (fun hcc => hh hcc.symm)
      exact ⟨[(0, 0)], s, hs⟩
  · intro row col hp picks s hhp hpicks hok
    have hInv := init_ok_inv row col hp picks s hhp hpicks hok
    have hspec := snakeInv_specInv s hInv
    obtain ⟨hd, ap, hapN, hapmem, hs⟩ := init_ok_elim row col hp picks s hok
    have hInv2 : InvOn s.row s.col s.board s.snake s.snake_length s.snake_row
        s.snake_col s.apple_row s.apple_col := hInv
    obtain ⟨_, _, _, _, _, _, _, _, hA, hApB2, _, hrow2, hcol2⟩ := hInv2
    refine ⟨?_, hspec.2.1, hspec.2.2.1, ?_, ?_, ?_, ?_, ?_⟩
    · unfold countApple
      apply countP_eq_one_of_unique _ (s.apple_row, s.apple_col)
        (gridCells_nodup _ _)
        ((mem_gridCells _ _ (by omega) (by omega) _).2 hApB2)
      intro p hp2
      rw [decide_eq_true_iff]
      exact hA p hp2
    · rw [hs]
      exact hhp
    · rw [hs]
    · rw [hs]
    · rw [hs]
    · rw [hs]

/-- Witness for C7: the three live parts evaluated at concrete dimensions —
a `1 × 5` construction fails, a `3 × 3` construction succeeds for some draws,
and the concrete `2 × 2` state `w0` has all the claimed properties. -/
theorem C7_construction_witness :
    SnakeBoard.init 1 5 (0, 0) [] = InitResult.invalidGridSize ∧
    (∃ picks s, SnakeBoard.init 3 3 (2, 2) picks = InitResult.ok s) ∧
    (countApple w0 = 1 ∧ countHead w0 = 1 ∧
      w0.board (w0.snake_row, w0.snake_col) = Cell.S1 ∧
      inB w0.row w0.col (w0.snake_row, w0.snake_col) ∧
      w0.snake_length = 1 ∧ w0.snake_direction = (0, 0) ∧
      w0.move_lock = false ∧ w0.end_ = false) :=
  ⟨C7_construction.1 1 5 (0, 0) [] (by decide),
   C7_construction.2.2.1 3 3 (2, 2) (by decide) (by decide),
   C7_construction.2.2.2 2 2 (0, 0) [(1, 1)] w0 (by decide) (by decide) rfl⟩

/-- C8: on a running state satisfying the representation invariant, if the
cell the head moves onto this tick is tagged `'A'`, then after a completed
tick the length has grown by exactly 1, the old food cell (the new head
position) is tagged `'S1'`, and the regenerated food sits on a cell that was
`'N'` on the board immediately before regeneration (the state right before
line 213) and is tagged `'A'` afterwards.  The completed-tick hypothesis
(`next` returned and did not end the game) plays the role of the apple loop
terminating. -/
theorem C8_food_consumption (s : SnakeBoard) (picks : List (Int × Int))
    (pr : SnakeBoard × Option Bool) (hInv : SnakeInv s)
    (hdir : s.snake_direction ≠ (0, 0))
    (hfood : s.board (s.newRow, s.newCol) = Cell.A)
    (hnext : s.next picks = some pr) (hr : pr.2 ≠ some true) :
    pr.1.snake_length = s.snake_length + 1 ∧
    pr.1.board (s.newRow, s.newCol) = Cell.S1 ∧
    (s.preRegenState).board (pr.1.apple_row, pr.1.apple_col) = Cell.N ∧
    pr.1.board (pr.1.apple_row, pr.1.apple_col) = Cell.A := by
  obtain ⟨hbr, hbc, hnS0, hcases⟩ := next_success_elim s picks pr hnext hr
  have hInv' : InvOn s.row s.col s.board s.snake s.snake_length s.snake_row
      s.snake_col s.apple_row s.apple_col := hInv
  obtain ⟨hL1, hL2, hL3, hnd, hbnd, hlast, hS1, hS0, hA, hApB, hstale,
    hrow, hcol⟩ := hInv'
  have hgrid : ∀ p : Int × Int,
      p ∈ gridCells s.row s.col ↔ inB s.row s.col p :=
    mem_gridCells s.row s.col (by omega) (by omega)
  have hnew_mem : (s.newRow, s.newCol) ∈ gridCells s.row s.col :=
    (hgrid _).2 ⟨hbr.1, hbr.2, hbc.1, hbc.2⟩
  have hdir' : s.snake_direction.1 ≠ 0 ∨ s.snake_direction.2 ≠ 0 := by
    by_contra hcon
    push_neg at hcon
    exact hdir (Prod.ext hcon.1 hcon.2)
  have hnewne : (s.newRow, s.newCol) ≠ (s.snake_row, s.snake_col) := by
    intro h
    rw [Prod.mk.injEq] at h
    obtain ⟨ha, hb⟩ := h
    rw [SnakeBoard.newRow] at ha
    rw [SnakeBoard.newCol] at hb
    rcases hdir' with h | h
    · exact h (by omega)
    · exact h (by omega)
  have hnewnotob : (s.newRow, s.newCol) ∉
      s.snake.drop (s.snake.length - s.snake_length) := by
    intro hmem
    by_cases hh : (s.newRow, s.newCol) = (s.snake_row, s.snake_col)
    · exact hnewne hh
    · exact hnS0 ((hS0 _ hnew_mem).2 ⟨hmem, hh⟩)
  have hate : (s.advanceCore).2 = true := by
    rw [advanceCore_ate, decide_eq_true_iff, setCell_apply, if_neg hnewne]
    exact hfood
  have hchar := fun q => advanceCore_board_eat s hL1 hL2 hL3 hate q
  rcases hcases with ⟨_, ap, hapN, hapmem, hpr⟩ | ⟨hate2, _⟩
  · have hapnotob : ap ∉ s.snake.drop (s.snake.length - s.snake_length) := by
      intro hmem
      have h2 := hchar ap
      rw [if_pos hmem] at h2
      rw [h2] at hapN
      exact Cell.noConfusion hapN
    have hapnew : ap ≠ (s.newRow, s.newCol) := by
      intro h
      have h2 := hchar ap
      rw [if_neg hapnotob, if_pos h] at h2
      rw [h2] at hapN
      exact Cell.noConfusion hapN
    have hlen2 : (s.advanceCore).1.snake_length = s.snake_length + 1 := by
      rw [advanceCore_length, hate]
      rfl
    refine ⟨?_, ?_, ?_, ?_⟩
    · rw [hpr]
      exact hlen2
    · rw [hpr]
      show setCell ((s.advanceCore).1.board) ap Cell.A
        (s.newRow, s.newCol) = Cell.S1
      rw [setCell_apply, if_neg (Ne.symm hapnew), hchar (s.newRow, s.newCol),
        if_neg hnewnotob, if_pos rfl]
    · rw [hpr]
      exact hapN
    · rw [hpr]
      show setCell ((s.advanceCore).1.board) ap Cell.A (ap.1, ap.2) = Cell.A
      rw [setCell_apply, if_pos Prod.mk.eta]
  · exact Bool.noConfusion (hate2.symm.trans hate)

/-- Witness for C8: the 2 × 2 state `wEat1` (head `(0, 0)`, apple `(0, 1)`,
direction `(1, 0)`) ticks onto the apple with the regeneration draw
`(1, 0)`. -/
theorem C8_food_consumption_witness :
    SnakeInv wEat1 ∧ wEat1.snake_direction ≠ (0, 0) ∧
    wEat1.board (wEat1.newRow, wEat1.newCol) = Cell.A ∧
    wEat1.next [(1, 0)] = some (nextOut wEat1 [(1, 0)]) ∧
    (nextOut wEat1 [(1, 0)]).2 ≠ some true ∧
    ((nextOut wEat1 [(1, 0)]).1.snake_length = wEat1.snake_length + 1 ∧
     (nextOut wEat1 [(1, 0)]).1.board (wEat1.newRow, wEat1.newCol) =
       Cell.S1 ∧
     (wEat1.preRegenState).board ((nextOut wEat1 [(1, 0)]).1.apple_row,
       (nextOut wEat1 [(1, 0)]).1.apple_col) = Cell.N ∧
     (nextOut wEat1 [(1, 0)]).1.board ((nextOut wEat1 [(1, 0)]).1.apple_row,
       (nextOut wEat1 [(1, 0)]).1.apple_col) = Cell.A) :=
  ⟨by decide, by decide, by decide, rfl, by decide,
   C8_food_consumption wEat1 [(1, 0)] (nextOut wEat1 [(1, 0)]) (by decide)
     (by decide) (by decide) rfl (by decide)⟩
